import Mathlib

/-! Shallow embedding of the movies catalog fetcher (catalog_fetcher.py and
imdb.py): the movie identity resolution and merge engine.  Python dicts are
modelled as insertion-ordered association lists, Python sets as
insertion-ordered duplicate-free lists, and the dynamically typed year fields
as a tagged scalar type.  The definitions mirror the Python source; the
theorems settle the specification claims about them.
-/

namespace Movies

/-- A Python scalar that is either an int or a str; used for fields whose
runtime type varies in the source (release years). -/
inductive PyScalar where
  | int (n : Int)
  | str (s : String)
deriving DecidableEq

/-- True when the scalar is an integer. -/
def PyScalar.isInt : PyScalar → Bool
  | .int _ => true
  | .str _ => false

/-- Lookup in a Python dict modelled as an insertion-ordered association list
(d.get(k), or d[k] when the key is known to be present). -/
def dictLookup {α : Type} (d : List (String × α)) (k : String) : Option α :=
  match d with
  | [] => none
  | p :: rest => if p.1 = k then some p.2 else dictLookup rest k

/-- Python dict assignment d[k] = v: overwrite in place, else append. -/
def dictInsert {α : Type} (d : List (String × α)) (k : String) (v : α) :
    List (String × α) :=
  match d with
  | [] => [(k, v)]
  | p :: rest => if p.1 = k then (k, v) :: rest else p :: dictInsert rest k v

/-- Python d.update(other): assign every pair of other, in order. -/
def dictUpdate {α : Type} (d other : List (String × α)) : List (String × α) :=
  other.foldl (fun acc kv => dictInsert acc kv.1 kv.2) d

/-- The keys of a dict. -/
def dkeys {α : Type} (d : List (String × α)) : List String :=
  d.map (fun p => p.1)

/-- Python set.update for a set modelled as a duplicate-free list: add the
elements of b that are not yet present, in order. -/
def pySetUnion (a b : List String) : List String :=
  b.foldl (fun acc x => if x ∈ acc then acc else acc ++ [x]) a

/-- Python set(xs): deduplicate keeping first occurrences. -/
def pySetOfList (l : List String) : List String :=
  pySetUnion [] l

/-- Python set equality: mutual containment. -/
def pySetEq (a b : List String) : Bool :=
  a.all (fun x => b.contains x) && b.all (fun x => a.contains x)

/-- Python a.isdisjoint(b): no common element. -/
def pyDisjoint (a b : List String) : Bool :=
  a.all (fun x => !(b.contains x))

/-- The upper-case to lower-case letter table. -/
def lowerPairs : List (Char × Char) :=
  [('A', 'a'), ('B', 'b'), ('C', 'c'), ('D', 'd'), ('E', 'e'),
   ('F', 'f'), ('G', 'g'), ('H', 'h'), ('I', 'i'), ('J', 'j'),
   ('K', 'k'), ('L', 'l'), ('M', 'm'), ('N', 'n'), ('O', 'o'),
   ('P', 'p'), ('Q', 'q'), ('R', 'r'), ('S', 's'), ('T', 't'),
   ('U', 'u'), ('V', 'v'), ('W', 'w'), ('X', 'x'), ('Y', 'y'),
   ('Z', 'z')]

/-- ASCII lower-casing of one character; models str.lower on the ASCII
titles that the normalizer joins on (non-ASCII characters are kept). -/
def pyLowerChar (c : Char) : Char :=
  ((lowerPairs.find? (fun p => p.1 == c)).map (fun p => p.2)).getD c

/-- One re.sub replacing every maximal run of characters satisfying p by a
single space.  The boolean records whether the previous character belonged to
the current run. -/
def subRuns (p : Char → Bool) : Bool → List Char → List Char
  | _, [] => []
  | inRun, c :: rest =>
    if p c then
      if inRun then subRuns p true rest else ' ' :: subRuns p true rest
    else c :: subRuns p false rest

/-- The character class of the first substitution in normalize_movie_name:
non-word characters together with the underscore. -/
def nonWord (c : Char) : Bool := !c.isAlphanum

/-- The character class of the second substitution: a literal space. -/
def isSpace (c : Char) : Bool := c = ' '

/-- Python str.strip: remove leading and trailing whitespace. -/
def pyStrip (l : List Char) : List Char :=
  ((l.dropWhile Char.isWhitespace).reverse.dropWhile Char.isWhitespace).reverse

/-- No two adjacent characters of the list both satisfy p. -/
def NR (p : Char → Bool) (l : List Char) : Prop :=
  List.Chain' (fun a b => ¬(p a = true ∧ p b = true)) l

/-- normalize_movie_name from imdb.py: lower-case, replace every maximal run
of non-word characters (underscore included) by one space, collapse space
runs, strip. -/
def normalize_movie_name (s : String) : String :=
  ⟨pyStrip (subRuns isSpace false (subRuns nonWord false (s.data.map pyLowerChar)))⟩

/-- Canonical reference entry (ImdbMovieInfo in imdb.py).  The year field is a
PyScalar because the bulk loader stores the raw TSV string in it. -/
structure ImdbMovieInfo where
  titles : List String := []
  imdb_id : String := ""
  year : PyScalar := .int (-1)
  enhanced : Bool := false
  enhancement_error : Bool := false
  languages : List String := []
  regions : List String := []
  detail : List (String × List String) := []
deriving DecidableEq

/-- A (platform, value) pair identifying a listing on its source platform. -/
structure PlatformId where
  platform : String := ""
  value : String := ""
deriving DecidableEq

/-- Python str(p) for a PlatformId: the attrs repr, equal for two pairs
exactly when their fields are equal. -/
def platformStr (p : PlatformId) : String :=
  "PlatformId(platform=" ++ p.platform ++ ", value=" ++ p.value ++ ")"

/-- A raw source record: a mapping of string keys to string values. -/
abbrev RawEntry := List (String × String)

/-- A catalog listing (MovieInfo in catalog_fetcher.py). -/
structure MovieInfo where
  name : String := ""
  languages : List String := []
  regions : List String := []
  imdb : List ImdbMovieInfo := []
  platforms : List PlatformId := []
  release_yr : PyScalar := .int (-1)
  src_to_raw_entry : List (String × RawEntry) := []
deriving DecidableEq

/-- The netflix platform tag. -/
def NETFLIX : String := "netflix"

/-- The netflix title url base. -/
def NETFLIX_TITLE_URL : String := "https://www.netflix.com/title/"

/-- The raw record key holding a netflix id. -/
def NETFLIXID_KEY : String := "netflixid"

/-- The platform-value marker for reelgood slugs. -/
def SLUG : String := "slug"

/-- The detail section holding languages. -/
def LANGUAGE_KEY : String := "Language"

/-- The tsv null sentinel, a backslash followed by N. -/
def NULL_SENTINEL : String := "\\N"

/-- Python str.startswith, on the character lists (String.startsWith itself
does not reduce in the kernel). -/
def pyStartsWith (s pre : String) : Bool :=
  pre.data.isPrefixOf s.data

/-- MovieInfo.get_netflix_url: first a non-slug netflix platform id, then the
first raw record with a truthy netflixid value, else nothing. -/
def get_netflix_url (m : MovieInfo) : Option String :=
  match m.platforms.find? (fun p => p.platform == NETFLIX && !(pyStartsWith p.value SLUG)) with
  | some p => some (NETFLIX_TITLE_URL ++ p.value)
  | none =>
    match m.src_to_raw_entry.findSome? (fun sv =>
        match dictLookup sv.2 NETFLIXID_KEY with
        | some nid => if nid = "" then none else some nid
        | none => none) with
    | some nid => some (NETFLIX_TITLE_URL ++ nid)
    | none => none

/-- MovieInfo.is_equivalent: equal-and-empty imdb id sets, then platform repr
overlap, then normalized name plus release year equality. -/
def is_equivalent (a b : MovieInfo) : Bool :=
  let self_imdbs := pySetOfList (a.imdb.map (fun i => i.imdb_id))
  let other_imdbs := pySetOfList (b.imdb.map (fun i => i.imdb_id))
  if pySetEq self_imdbs other_imdbs && self_imdbs.length == 0 then true
  else
    let other_platforms := pySetOfList (b.platforms.map platformStr)
    let self_platforms := pySetOfList (a.platforms.map platformStr)
    if !(pyDisjoint other_platforms self_platforms) then true
    else
      decide (normalize_movie_name a.name = normalize_movie_name b.name) &&
        decide (a.release_yr = b.release_yr)

/-- Python truthiness of the year filter: None and 0 are falsy. -/
def pyFalsyYear : Option Int → Bool
  | none => true
  | some y => y == 0

/-- MovieInfo.matches (named matchesFilter here because matches is a Lean
keyword).  The languages filter collapses None and the empty set
(both falsy); the year filter keeps the None versus 0 distinction because the
assert tests -is not None- while the check tests truthiness.  A failed assert
is modelled by none. -/
def matchesFilter (m : MovieInfo) (languages : List String) (release_yr : Option Int) :
    Option Bool :=
  if languages.isEmpty && release_yr.isNone then none
  else
    let lang_check := languages.isEmpty || !(pyDisjoint languages m.languages)
    let release_yr_check := pyFalsyYear release_yr ||
      (match release_yr with
       | some y => decide (m.release_yr = PyScalar.int y)
       | none => false) ||
      (decide (m.release_yr = PyScalar.int (-1)) &&
       (match release_yr with
        | some y => m.imdb.any (fun mi => decide (mi.year = PyScalar.int y))
        | none => false))
    some (lang_check && release_yr_check)

/-- The language side of the matches contract as the specification words it:
no language filter given, or the filter intersects the listing languages. -/
def langFilterClaim (m : MovieInfo) (languages : List String) : Prop :=
  languages = [] ∨ ∃ x ∈ languages, x ∈ m.languages

/-- The year side of the matches contract as claim C3 words it: no year
filter given, or the filter year equals the listing year, or the listing
year is the unknown sentinel and a matched canonical entry carries the
filter year. -/
def yearFilterClaim (m : MovieInfo) : Option Int → Prop
  | none => True
  | some y => m.release_yr = PyScalar.int y ∨
      (m.release_yr = PyScalar.int (-1) ∧ ∃ mi ∈ m.imdb, mi.year = PyScalar.int y)

/-- The year side of the matches contract as the code behaves: a filter year
of 0 is additionally treated like an absent filter (Python truthiness). -/
def yearFilterAmended (m : MovieInfo) : Option Int → Prop
  | none => True
  | some y => y = 0 ∨ m.release_yr = PyScalar.int y ∨
      (m.release_yr = PyScalar.int (-1) ∧ ∃ mi ∈ m.imdb, mi.year = PyScalar.int y)

/-- A listing with a known release year, used to separate the claimed and
actual behavior of matches on a filter year of 0. -/
def mC3 : MovieInfo := { name := "m", languages := ["en"], release_yr := .int 2019 }

/-- One step of the dict comprehension opening merge_netflix: a listing with
a derivable netflix url is keyed by it, a keyless listing is skipped. -/
def initStep (acc : List (String × MovieInfo)) (m : MovieInfo) :
    List (String × MovieInfo) :=
  match get_netflix_url m with
  | some u => dictInsert acc u m
  | none => acc

/-- The dict comprehension opening merge_netflix: the listings of the first
source keyed by netflix url, keyless listings skipped, later duplicates
overwriting earlier ones in place. -/
def initNetflixMap (movies1 : List MovieInfo) : List (String × MovieInfo) :=
  movies1.foldl initStep []

/-- The body of the merge_netflix loop for one listing of the second source:
no derivable url is the assert False branch (none); an unseen key inserts the
listing; a seen key extends the existing raw-by-source mapping. -/
def mergeStep (acc : List (String × MovieInfo)) (m : MovieInfo) :
    Option (List (String × MovieInfo)) :=
  match get_netflix_url m with
  | none => none
  | some nurl =>
    match dictLookup acc nurl with
    | none => some (dictInsert acc nurl m)
    | some existing =>
      some (dictInsert acc nurl
        { existing with
          src_to_raw_entry := dictUpdate existing.src_to_raw_entry m.src_to_raw_entry })

/-- merge_netflix up to the final dict, none on an assert failure. -/
def merge_netflix_map (movies1 movies2 : List MovieInfo) :
    Option (List (String × MovieInfo)) :=
  movies2.foldlM mergeStep (initNetflixMap movies1)

/-- merge_netflix: the values of the merged dict in insertion order. -/
def merge_netflix (movies1 movies2 : List MovieInfo) : Option (List MovieInfo) :=
  (merge_netflix_map movies1 movies2).map (fun d => d.map (fun p => p.2))

/-- One title insertion while building name_to_id: the id is added to the
set stored at the normalized title. -/
def addTitleKey (idv : String) (acc2 : List (String × List String)) (title : String) :
    List (String × List String) :=
  let key := normalize_movie_name title
  let cur := (dictLookup acc2 key).getD []
  dictInsert acc2 key (if idv ∈ cur then cur else cur ++ [idv])

/-- The name_to_id index built by ImdbMovieSet.init: for every movie and
every title, the id is added to the set at the normalized title. -/
def buildNameToId (S : List (String × ImdbMovieInfo)) : List (String × List String) :=
  S.foldl (fun acc p => p.2.titles.foldl (addTitleKey p.1) acc) []

/-- ImdbMovieSet.lookup_movie: normalize the query, read the id set, return
the referenced entries. -/
def lookup_movie (S : List (String × ImdbMovieInfo)) (name : String) :
    List ImdbMovieInfo :=
  ((dictLookup (buildNameToId S) (normalize_movie_name name)).getD []).filterMap
    (fun imdb_id => dictLookup S imdb_id)

/-- One row of title.basics.tsv as read by csv.DictReader. -/
structure BasicsRow where
  tconst : String := ""
  startYear : String := ""
  titleType : String := ""
  primaryTitle : String := ""
  originalTitle : String := ""
deriving DecidableEq

/-- One row of title.akas.tsv as read by csv.DictReader. -/
structure AkaRow where
  titleId : String := ""
  title : String := ""
  region : String := ""
  language : String := ""
deriving DecidableEq

/-- The title type retained by the bulk scan. -/
def MOVIE_TYPE : String := "movie"

/-- Processing of one basics row in ImdbMovieSet, bulk mode: movie rows seed
an entry under their id with the raw startYear string as year. -/
def processBasicsRow (ret : List (String × ImdbMovieInfo)) (row : BasicsRow) :
    List (String × ImdbMovieInfo) :=
  if row.titleType = MOVIE_TYPE then
    dictInsert ret row.tconst
      { imdb_id := row.tconst,
        titles := pySetOfList [row.primaryTitle, row.originalTitle],
        year := PyScalar.str row.startYear }
  else ret

/-- Processing of one akas row: a row whose id was not seeded is dropped;
otherwise the title is added and non-sentinel language and region codes are
accumulated on the seeded entry. -/
def processAkaRow (ret : List (String × ImdbMovieInfo)) (row : AkaRow) :
    List (String × ImdbMovieInfo) :=
  match dictLookup ret row.titleId with
  | none => ret
  | some movie =>
    dictInsert ret row.titleId
      { movie with
        titles := pySetUnion movie.titles [row.title],
        languages :=
          if row.language = NULL_SENTINEL then movie.languages
          else pySetUnion movie.languages [row.language],
        regions :=
          if row.region = NULL_SENTINEL then movie.regions
          else pySetUnion movie.regions [row.region] }

/-- The provenance tag of the whats-on-netflix feed. -/
def WON_SRC : String := "whats-on-netflix.com"

/-- The feed key holding the title. -/
def TITLE_KEY : String := "title"

/-- The feed key holding the release year string. -/
def TITLERELEASED_KEY : String := "titlereleased"

/-- MovieInfo.from_whats_on_netflix: the raw titlereleased string is stored
in release_yr without conversion.  A missing key raises, modelled as none. -/
def from_whats_on_netflix (entry : RawEntry) : Option MovieInfo :=
  match dictLookup entry TITLE_KEY, dictLookup entry TITLERELEASED_KEY,
        dictLookup entry NETFLIXID_KEY with
  | some title, some released, some nid =>
    some { name := title,
           src_to_raw_entry := [(WON_SRC, entry)],
           release_yr := PyScalar.str released,
           platforms := [{ platform := NETFLIX, value := nid }] }
  | _, _, _ => none

/-- The detail mapping extracted from a title page. -/
abbrev Detail := List (String × List String)

/-- A detail fetch oracle always returning one Language section. -/
def sampleFetch : String → Except Unit Detail :=
  fun _ => Except.ok [(("Language"), [("English")])]

/-- A concrete already-enriched entry. -/
def sampleSettledC8 : ImdbMovieInfo := { imdb_id := "tt1", enhanced := true }

/-- A concrete entry not yet enriched. -/
def sampleFreshC8 : ImdbMovieInfo := { imdb_id := "tt2" }

/-- A concrete two-entry set, one settled and one fresh. -/
def sampleSetC8 : List (String × ImdbMovieInfo) :=
  [(("tt1"), sampleSettledC8), (("tt2"), sampleFreshC8)]

/-- A concrete first-source listing keyed by a netflix title url. -/
def sampleMergeA : MovieInfo :=
  { name := "M", release_yr := .str ("2017"),
    src_to_raw_entry := [(("whats-on-netflix.com"), [(("title"), ("M")), (("netflixid"), ("81018236"))])],
    platforms := [{ platform := "netflix", value := "81018236" }] }

/-- A concrete second-source listing with the same netflix title url. -/
def sampleMergeB : MovieInfo :=
  { name := "M", release_yr := .int 2017,
    src_to_raw_entry := [(("finder.com:netflix"), [(("Title"), ("M")), (("watch_link"), ("w/81018236"))])],
    platforms := [{ platform := "netflix", value := "81018236" }] }

/-- A concrete second-source listing whose key differs from every first
source key. -/
def sampleMergeNew : MovieInfo :=
  { name := "N",
    src_to_raw_entry := [(("finder.com:netflix"), [(("Title"), ("N"))])],
    platforms := [{ platform := "netflix", value := "99" }] }

/-- A concrete listing with no derivable netflix url: a slug platform value
and no netflixid raw field. -/
def sampleMergeBad : MovieInfo :=
  { name := "Z", platforms := [{ platform := "netflix", value := "slug_z" }] }

/-- The netflix url shared by the two merge samples. -/
def sampleMergeKey : String := "https://www.netflix.com/title/81018236"

/-- A concrete whats-on-netflix feed entry, following the sample documented
in the source. -/
def sampleWonEntry : RawEntry :=
  [("title", "Mayurakshi"), ("type", "Movie"), ("titlereleased", "2017"),
   ("rating", "TV-14"), ("imdb", "7.1/10"), ("netflixid", "81018236")]

/-- A concrete movie row of title.basics.tsv. -/
def sampleBasicsRow : BasicsRow :=
  { tconst := "tt0000001", startYear := "1999", titleType := "movie",
    primaryTitle := "Carmencita", originalTitle := "Carmencita" }

/-- A concrete seeded index entry, for the akas-row claim. -/
def sampleEntryC9 : ImdbMovieInfo :=
  { imdb_id := "tt1", titles := ["The Matrix"], year := .str ("1999") }

/-- A concrete akas row whose id is absent from the seeded index. -/
def sampleAkaRowC9 : AkaRow :=
  { titleId := "tt9", title := "Die Matrix", region := "DE", language := "de" }

/-- ImdbMovieInfo.enhance_data.  The network scrape is an oracle: ok d is a
successful fetch returning the parsed detail sections, error is any failure.
The boolean output records whether a fetch was performed. -/
def enhance_data (fetch : Except Unit Detail) (m : ImdbMovieInfo) :
    ImdbMovieInfo × Bool :=
  if m.imdb_id = "" then (m, false)
  else if m.enhanced || m.enhancement_error then (m, false)
  else
    match fetch with
    | .ok d =>
      ({ m with
         detail := d,
         languages := pySetUnion m.languages ((dictLookup d LANGUAGE_KEY).getD []),
         enhanced := true,
         enhancement_error := false }, true)
    | .error _ =>
      ({ m with enhancement_error := true, enhanced := false }, true)

/-- The body of the enhance_movie_info loop for one id: look the movie up
(a missing id is a KeyError, modelled as none), run enhance_data on it, and
report its id when its settled-state pair changed. -/
def enhanceStep (fetch : String → Except Unit Detail)
    (acc : List (String × ImdbMovieInfo) × List String) (imdb_id : String) :
    Option (List (String × ImdbMovieInfo) × List String) :=
  match dictLookup acc.1 imdb_id with
  | none => none
  | some movie =>
    let before := (movie.enhanced, movie.enhancement_error)
    let step := enhance_data (fetch imdb_id) movie
    some (dictInsert acc.1 imdb_id step.1,
          if (step.1.enhanced, step.1.enhancement_error) ≠ before
          then acc.2 ++ [step.1.imdb_id] else acc.2)

/-- ImdbMovieSet.enhance_movie_info over an explicit id list.  The worker
pool is modelled sequentially, one enhance_data call per id, since the claims
concern which entries change and which ids are reported. -/
def enhance_movie_info (S : List (String × ImdbMovieInfo))
    (fetch : String → Except Unit Detail) (imdb_ids : List String) :
    Option (List (String × ImdbMovieInfo) × List String) :=
  imdb_ids.foldlM (enhanceStep fetch) (S, [])

/-! Helper lemmas about the dict model. -/

theorem dkeys_nil {α : Type} : dkeys ([] : List (String × α)) = [] := rfl

theorem dkeys_cons {α : Type} (p : String × α) (d : List (String × α)) :
    dkeys (p :: d) = p.1 :: dkeys d := rfl

theorem mem_dkeys {α : Type} (d : List (String × α)) (k : String) :
    k ∈ dkeys d ↔ ∃ v, (k, v) ∈ d := by
  constructor
  · intro h
    simp only [dkeys, List.mem_map] at h
    obtain ⟨⟨k1, v1⟩, hp, he⟩ := h
    simp only at he
    subst he
    exact ⟨v1, hp⟩
  · rintro ⟨v, hv⟩
    simp only [dkeys, List.mem_map]
    exact ⟨(k, v), hv, rfl⟩

theorem nodup_dkeys_cons {α : Type} (p : String × α) (d : List (String × α)) :
    (dkeys (p :: d)).Nodup ↔ p.1 ∉ dkeys d ∧ (dkeys d).Nodup := by
  rw [dkeys_cons]
  exact List.nodup_cons

theorem dictLookup_dictInsert_self {α : Type} (d : List (String × α)) (k : String) (v : α) :
    dictLookup (dictInsert d k v) k = some v := by
  induction d with
  | nil => simp [dictInsert, dictLookup]
  | cons p rest ih =>
    by_cases h : p.1 = k
    · simp [dictInsert, dictLookup, h]
    · simp [dictInsert, dictLookup, h, ih]

theorem dictLookup_dictInsert_ne {α : Type} (d : List (String × α)) (k k' : String) (v : α)
    (h : k' ≠ k) : dictLookup (dictInsert d k v) k' = dictLookup d k' := by
  have hkk : ¬k = k' := fun hh => h hh.symm
  induction d with
  | nil => simp [dictInsert, dictLookup, hkk]
  | cons p rest ih =>
    by_cases hp : p.1 = k
    · have hp' : ¬p.1 = k' := by rw [hp]; exact hkk
      simp [dictInsert, dictLookup, hp, hp', hkk]
    · by_cases hp' : p.1 = k'
      · simp [dictInsert, dictLookup, hp, hp', h]
      · simp [dictInsert, dictLookup, hp, hp', ih]

theorem dkeys_dictInsert {α : Type} (d : List (String × α)) (k : String) (v : α) :
    dkeys (dictInsert d k v) = if k ∈ dkeys d then dkeys d else dkeys d ++ [k] := by
  induction d with
  | nil => simp [dictInsert, dkeys]
  | cons p rest ih =>
    by_cases h : p.1 = k
    · have hmem : k ∈ dkeys (p :: rest) := by rw [dkeys_cons, h]; exact List.mem_cons_self _ _
      have hstep : dictInsert (p :: rest) k v = (k, v) :: rest := by simp [dictInsert, h]
      simp only [hmem, if_true]
      rw [hstep, dkeys_cons, dkeys_cons, h]
    · have hne : ¬k = p.1 := fun hh => h hh.symm
      have hstep : dictInsert (p :: rest) k v = p :: dictInsert rest k v := by
        simp [dictInsert, h]
      rw [hstep, dkeys_cons, dkeys_cons, ih]
      by_cases hm : k ∈ dkeys rest
      · simp [hm, hne]
      · simp [hm, hne]

theorem nodup_dkeys_dictInsert {α : Type} (d : List (String × α)) (k : String) (v : α)
    (h : (dkeys d).Nodup) : (dkeys (dictInsert d k v)).Nodup := by
  rw [dkeys_dictInsert]
  by_cases hm : k ∈ dkeys d
  · simpa [hm] using h
  · simp only [hm, if_false]
    simpa [List.nodup_append] using ⟨h, hm⟩

theorem dictLookup_eq_some_of_mem {α : Type} (d : List (String × α)) (k : String) (v : α)
    (hd : (dkeys d).Nodup) (hm : (k, v) ∈ d) : dictLookup d k = some v := by
  induction d with
  | nil => simp at hm
  | cons p rest ih =>
    have hd' := (nodup_dkeys_cons p rest).mp hd
    rcases List.mem_cons.mp hm with h | h
    · simp [dictLookup, ← h]
    · have hk : p.1 ≠ k := by
        intro he
        exact hd'.1 (he ▸ (mem_dkeys rest k).mpr ⟨v, h⟩)
      simp [dictLookup, hk, ih hd'.2 h]

theorem mem_of_dictLookup_eq_some {α : Type} (d : List (String × α)) (k : String) (v : α)
    (h : dictLookup d k = some v) : (k, v) ∈ d := by
  induction d with
  | nil => simp [dictLookup] at h
  | cons p rest ih =>
    obtain ⟨p1, p2⟩ := p
    by_cases hp : p1 = k
    · simp only [dictLookup, hp, if_true, Option.some_inj] at h
      subst hp
      subst h
      exact List.mem_cons_self _ _
    · simp only [dictLookup, hp, if_false] at h
      exact List.mem_cons_of_mem _ (ih h)

theorem countP_key_eq_one {α : Type} (d : List (String × α)) (k : String)
    (hd : (dkeys d).Nodup) (h : (dictLookup d k).isSome) :
    d.countP (fun p => decide (p.1 = k)) = 1 := by
  induction d with
  | nil => simp [dictLookup] at h
  | cons p rest ih =>
    have hd' := (nodup_dkeys_cons p rest).mp hd
    by_cases hp : p.1 = k
    · have h0 : rest.countP (fun q => decide (q.1 = k)) = 0 := by
        rw [List.countP_eq_zero]
        rintro ⟨q1, q2⟩ hq
        simp only [decide_eq_true_eq]
        intro hk
        subst hk
        exact (hp ▸ hd'.1) ((mem_dkeys rest q1).mpr ⟨q2, hq⟩)
      rw [List.countP_cons]
      simp [hp, h0]
    · have h' : (dictLookup rest k).isSome := by
        simpa [dictLookup, hp] using h
      rw [List.countP_cons]
      simp [hp, ih hd'.2 h']

theorem dictLookup_dictUpdate_of_not_mem {α : Type} (d other : List (String × α)) (s : String) :
    s ∉ dkeys other → dictLookup (dictUpdate d other) s = dictLookup d s := by
  induction other generalizing d with
  | nil => intro _; simp [dictUpdate]
  | cons q rest ih =>
    intro h
    have h1 : s ∉ dkeys rest := fun hm => h (by rw [dkeys_cons]; exact List.mem_cons_of_mem _ hm)
    have hq : s ≠ q.1 := fun he => h (by rw [dkeys_cons, he]; exact List.mem_cons_self _ _)
    show dictLookup (dictUpdate (dictInsert d q.1 q.2) rest) s = dictLookup d s
    rw [ih _ h1, dictLookup_dictInsert_ne _ _ _ _ hq]

theorem dictLookup_dictUpdate_of_mem {α : Type} (d other : List (String × α)) (s : String) (r : α) :
    (dkeys other).Nodup → (s, r) ∈ other → dictLookup (dictUpdate d other) s = some r := by
  induction other generalizing d with
  | nil => intro _ hm; simp at hm
  | cons q rest ih =>
    intro hnd hm
    have hnd' := (nodup_dkeys_cons q rest).mp hnd
    rcases List.mem_cons.mp hm with h | h
    · have hs : s ∉ dkeys rest := by
        intro hmem
        rw [← h] at hnd'
        exact hnd'.1 hmem
      show dictLookup (dictUpdate (dictInsert d q.1 q.2) rest) s = some r
      rw [dictLookup_dictUpdate_of_not_mem _ _ _ hs, ← h, dictLookup_dictInsert_self]
    · show dictLookup (dictUpdate (dictInsert d q.1 q.2) rest) s = some r
      exact ih _ hnd'.2 h

/-! Helper lemmas about the set model. -/

theorem mem_pySetUnion (a b : List String) (x : String) :
    x ∈ pySetUnion a b ↔ x ∈ a ∨ x ∈ b := by
  induction b generalizing a with
  | nil => simp [pySetUnion]
  | cons y rest ih =>
    show x ∈ pySetUnion (if y ∈ a then a else a ++ [y]) rest ↔ _
    rw [ih]
    by_cases hy : y ∈ a
    · rw [if_pos hy]
      constructor
      · rintro (h | h)
        · exact Or.inl h
        · exact Or.inr (List.mem_cons_of_mem _ h)
      · rintro (h | h)
        · exact Or.inl h
        · rcases List.mem_cons.mp h with rfl | h
          · exact Or.inl hy
          · exact Or.inr h
    · rw [if_neg hy]
      simp [List.mem_append, List.mem_cons, or_assoc]

theorem mem_pySetOfList (l : List String) (x : String) :
    x ∈ pySetOfList l ↔ x ∈ l := by
  simp [pySetOfList, mem_pySetUnion]

theorem pySetOfList_nil_iff (l : List String) :
    pySetOfList l = [] ↔ l = [] := by
  constructor
  · intro h
    cases l with
    | nil => rfl
    | cons y rest =>
      have : y ∈ pySetOfList (y :: rest) := (mem_pySetOfList _ _).mpr (by simp)
      rw [h] at this
      simp at this
  · intro h
    simp [h, pySetOfList, pySetUnion]

theorem pySetEq_empty_iff (x y : List String) :
    (pySetEq x y && (x.length == 0)) = true ↔ x = [] ∧ y = [] := by
  constructor
  · intro h
    simp only [Bool.and_eq_true, beq_iff_eq, List.length_eq_zero] at h
    obtain ⟨hst, hx⟩ := h
    subst hx
    refine ⟨rfl, ?_⟩
    simp only [pySetEq, List.all_nil, Bool.true_and, List.all_eq_true] at hst
    cases y with
    | nil => rfl
    | cons a rest =>
      have := hst a (by simp)
      simp at this
  · rintro ⟨hx, hy⟩
    subst hx
    subst hy
    rfl

theorem pyDisjoint_eq_true_iff (a b : List String) :
    pyDisjoint a b = true ↔ ∀ x ∈ a, x ∉ b := by
  simp [pyDisjoint, List.all_eq_true]

theorem pyDisjoint_eq_false_iff (a b : List String) :
    pyDisjoint a b = false ↔ ∃ x, x ∈ a ∧ x ∈ b := by
  constructor
  · intro h
    by_contra hc
    push_neg at hc
    have : pyDisjoint a b = true := (pyDisjoint_eq_true_iff a b).mpr hc
    rw [h] at this
    exact Bool.false_ne_true this
  · rintro ⟨x, hxa, hxb⟩
    cases hpd : pyDisjoint a b
    · rfl
    · exact absurd hxb ((pyDisjoint_eq_true_iff a b).mp hpd x hxa)

theorem pyDisjoint_comm (a b : List String) :
    pyDisjoint a b = pyDisjoint b a := by
  rw [Bool.eq_iff_iff, pyDisjoint_eq_true_iff, pyDisjoint_eq_true_iff]
  constructor
  · intro h x hx hxa
    exact h x hxa hx
  · intro h x hx hxb
    exact h x hxb hx

/-! Helper lemmas about the name normalizer. -/

theorem pyLowerChar_idem (c : Char) : pyLowerChar (pyLowerChar c) = pyLowerChar c := by
  cases hf : lowerPairs.find? (fun p => p.1 == c) with
  | none =>
    have h1 : pyLowerChar c = c := by simp [pyLowerChar, hf]
    rw [h1]
    exact h1
  | some q =>
    have hq : q ∈ lowerPairs := List.mem_of_find?_eq_some hf
    have h1 : pyLowerChar c = q.2 := by simp [pyLowerChar, hf]
    have h2 : pyLowerChar q.2 = q.2 := by
      have hn : lowerPairs.find? (fun p => p.1 == q.2) = none := by
        rw [List.find?_eq_none]
        intro x hx
        have hfact : ∀ x ∈ lowerPairs, ∀ y ∈ lowerPairs, (x.1 == y.2) = false := by decide
        simp [hfact x hx q hq]
      simp [pyLowerChar, hn]
    rw [h1, h2]

theorem pyLowerChar_space : pyLowerChar ' ' = ' ' := by decide

theorem mem_subRuns (p : Char → Bool) (l : List Char) :
    ∀ (b : Bool) (c : Char), c ∈ subRuns p b l → c = ' ' ∨ (c ∈ l ∧ p c = false) := by
  induction l with
  | nil => intro b c h; simp [subRuns] at h
  | cons c0 rest ih =>
    intro b c h
    by_cases hp : p c0 = true
    · rcases b with _ | _
      · rw [show subRuns p false (c0 :: rest) = ' ' :: subRuns p true rest from by
              simp [subRuns, hp]] at h
        rcases List.mem_cons.mp h with rfl | h
        · exact Or.inl rfl
        · rcases ih true c h with h1 | ⟨h2, h3⟩
          · exact Or.inl h1
          · exact Or.inr ⟨List.mem_cons_of_mem _ h2, h3⟩
      · rw [show subRuns p true (c0 :: rest) = subRuns p true rest from by
              simp [subRuns, hp]] at h
        rcases ih true c h with h1 | ⟨h2, h3⟩
        · exact Or.inl h1
        · exact Or.inr ⟨List.mem_cons_of_mem _ h2, h3⟩
    · have hp' : p c0 = false := by simpa using hp
      rw [show subRuns p b (c0 :: rest) = c0 :: subRuns p false rest from by
            simp [subRuns, hp]] at h
      rcases List.mem_cons.mp h with rfl | h
      · exact Or.inr ⟨List.mem_cons_self _ _, hp'⟩
      · rcases ih false c h with h1 | ⟨h2, h3⟩
        · exact Or.inl h1
        · exact Or.inr ⟨List.mem_cons_of_mem _ h2, h3⟩

theorem head_subRuns_true (p : Char → Bool) (l : List Char) :
    ∀ c, (subRuns p true l).head? = some c → p c = false := by
  induction l with
  | nil => intro c h; simp [subRuns] at h
  | cons c0 rest ih =>
    intro c h
    by_cases hp : p c0 = true
    · rw [show subRuns p true (c0 :: rest) = subRuns p true rest from by
            simp [subRuns, hp]] at h
      exact ih c h
    · have hp' : p c0 = false := by simpa using hp
      rw [show subRuns p true (c0 :: rest) = c0 :: subRuns p false rest from by
            simp [subRuns, hp]] at h
      simp only [List.head?_cons, Option.some_inj] at h
      rw [← h]
      exact hp'

theorem NR_subRuns (p : Char → Bool) (l : List Char) : ∀ b, NR p (subRuns p b l) := by
  induction l with
  | nil =>
    intro b
    show List.Chain' _ (subRuns p b [])
    rw [show subRuns p b [] = [] from rfl]
    exact List.chain'_nil
  | cons c0 rest ih =>
    intro b
    by_cases hp : p c0 = true
    · rcases b with _ | _
      · rw [show subRuns p false (c0 :: rest) = ' ' :: subRuns p true rest from by
              simp [subRuns, hp]]
        refine List.chain'_cons'.mpr ⟨?_, ih true⟩
        intro y hy
        have hpy : p y = false := head_subRuns_true p rest y (Option.mem_def.mp hy)
        rintro ⟨_, h2⟩
        rw [hpy] at h2
        exact Bool.false_ne_true h2
      · rw [show subRuns p true (c0 :: rest) = subRuns p true rest from by
              simp [subRuns, hp]]
        exact ih true
    · have hp' : p c0 = false := by simpa using hp
      rw [show subRuns p b (c0 :: rest) = c0 :: subRuns p false rest from by
            simp [subRuns, hp]]
      refine List.chain'_cons'.mpr ⟨?_, ih false⟩
      intro y _
      rintro ⟨h1, _⟩
      rw [hp'] at h1
      exact Bool.false_ne_true h1

theorem subRuns_true_eq_false (p : Char → Bool) (l : List Char)
    (h : ∀ c, l.head? = some c → p c = false) : subRuns p true l = subRuns p false l := by
  cases l with
  | nil => rfl
  | cons c0 rest =>
    have hp : p c0 = false := h c0 rfl
    simp [subRuns, hp]

theorem subRuns_fix (p : Char → Bool) :
    ∀ l, (∀ c ∈ l, p c = true → c = ' ') → NR p l → subRuns p false l = l := by
  intro l
  induction l with
  | nil => intro _ _; rfl
  | cons c0 rest ih =>
    intro h1 h2
    have h1' : ∀ c ∈ rest, p c = true → c = ' ' :=
      fun c hc => h1 c (List.mem_cons_of_mem _ hc)
    have h2' : NR p rest := h2.tail
    by_cases hp : p c0 = true
    · have hsp : c0 = ' ' := h1 c0 (List.mem_cons_self _ _) hp
      have hhead : ∀ c, rest.head? = some c → p c = false := by
        intro c hc
        have hr := (List.chain'_cons'.mp h2).1 c (Option.mem_def.mpr hc)
        cases hpc : p c
        · rfl
        · exact absurd ⟨hp, hpc⟩ hr
      calc subRuns p false (c0 :: rest)
          = ' ' :: subRuns p true rest := by simp [subRuns, hp]
        _ = ' ' :: subRuns p false rest := by rw [subRuns_true_eq_false p rest hhead]
        _ = ' ' :: rest := by rw [ih h1' h2']
        _ = c0 :: rest := by rw [hsp]
    · have hp' : p c0 = false := by simpa using hp
      calc subRuns p false (c0 :: rest)
          = c0 :: subRuns p false rest := by simp [subRuns, hp]
        _ = c0 :: rest := by rw [ih h1' h2']

theorem NR_mono (p q : Char → Bool) (himp : ∀ c, q c = true → p c = true) :
    ∀ l, NR p l → NR q l := by
  intro l h
  exact List.Chain'.imp (fun a b hr hq => hr ⟨himp a hq.1, himp b hq.2⟩) h

theorem head?_dropWhile_false (p : Char → Bool) (l : List Char) (c : Char)
    (h : (l.dropWhile p).head? = some c) : p c = false := by
  have hh := List.head?_dropWhile_not p l
  rw [h] at hh
  exact hh

theorem dropWhile_eq_self_of_head (p : Char → Bool) (l : List Char)
    (h : ∀ c, l.head? = some c → p c = false) : l.dropWhile p = l := by
  cases l with
  | nil => rfl
  | cons c0 rest =>
    have := h c0 rfl
    simp [List.dropWhile_cons, this]

theorem pyStrip_head (l : List Char) (c : Char) (h : (pyStrip l).head? = some c) :
    c.isWhitespace = false := by
  unfold pyStrip at h
  rw [List.head?_reverse] at h
  obtain ⟨t, ht⟩ :=
    List.dropWhile_suffix (l := (l.dropWhile Char.isWhitespace).reverse) Char.isWhitespace
  have hvl : ((l.dropWhile Char.isWhitespace).reverse).getLast? = some c := by
    rw [← ht, List.getLast?_append, h]
    rfl
  rw [List.getLast?_reverse] at hvl
  exact head?_dropWhile_false _ _ _ hvl

theorem pyStrip_last (l : List Char) (c : Char) (h : (pyStrip l).getLast? = some c) :
    c.isWhitespace = false := by
  unfold pyStrip at h
  rw [List.getLast?_reverse] at h
  exact head?_dropWhile_false _ _ _ h

theorem pyStrip_fix (l : List Char)
    (h1 : ∀ c, l.head? = some c → c.isWhitespace = false)
    (h2 : ∀ c, l.getLast? = some c → c.isWhitespace = false) : pyStrip l = l := by
  unfold pyStrip
  rw [dropWhile_eq_self_of_head _ _ h1]
  rw [dropWhile_eq_self_of_head _ _
    (fun c hc => h2 c (by rw [List.head?_reverse] at hc; exact hc))]
  exact List.reverse_reverse l

theorem NR_reverse (p : Char → Bool) (l : List Char) (h : NR p l) : NR p l.reverse := by
  unfold NR
  rw [List.chain'_reverse]
  exact List.Chain'.imp (fun a b hr hc => hr ⟨hc.2, hc.1⟩) h

theorem NR_dropWhile (p q : Char → Bool) (l : List Char) (h : NR p l) :
    NR p (l.dropWhile q) :=
  List.Chain'.suffix h (List.dropWhile_suffix q)

theorem NR_pyStrip (p : Char → Bool) (l : List Char) (h : NR p l) : NR p (pyStrip l) := by
  unfold pyStrip
  exact NR_reverse _ _ (NR_dropWhile _ _ _ (NR_reverse _ _ (NR_dropWhile _ _ _ h)))

theorem mem_pyStrip (l : List Char) (c : Char) (h : c ∈ pyStrip l) : c ∈ l := by
  unfold pyStrip at h
  rw [List.mem_reverse] at h
  have h2 := List.dropWhile_subset Char.isWhitespace h
  rw [List.mem_reverse] at h2
  exact List.dropWhile_subset _ h2

theorem map_fixed (f : Char → Char) (l : List Char) (h : ∀ c ∈ l, f c = c) :
    l.map f = l := by
  have hg : l.map f = l.map id := List.map_congr_left (fun a ha => by rw [h a ha]; rfl)
  rw [hg, List.map_id]

theorem isSpace_imp_nonWord : ∀ c, isSpace c = true → nonWord c = true := by
  intro c h
  have hc : c = ' ' := by simpa [isSpace] using h
  rw [hc]
  decide

theorem sub2_after_sub1 (L : List Char) :
    subRuns isSpace false (subRuns nonWord false L) = subRuns nonWord false L := by
  apply subRuns_fix
  · intro c _ h
    simpa [isSpace] using h
  · exact NR_mono nonWord isSpace isSpace_imp_nonWord _ (NR_subRuns nonWord L false)

theorem normalize_data (s : String) :
    (normalize_movie_name s).data =
      pyStrip (subRuns nonWord false (s.data.map pyLowerChar)) := by
  show pyStrip (subRuns isSpace false (subRuns nonWord false (s.data.map pyLowerChar))) = _
  rw [sub2_after_sub1]

theorem normalized_chars (s : String) :
    ∀ c ∈ (normalize_movie_name s).data, (c = ' ' ∨ nonWord c = false) ∧ pyLowerChar c = c := by
  intro c hc
  rw [normalize_data] at hc
  have hc1 := mem_pyStrip _ _ hc
  rcases mem_subRuns nonWord _ false c hc1 with h | ⟨h2, h3⟩
  · subst h
    exact ⟨Or.inl rfl, pyLowerChar_space⟩
  · rcases List.mem_map.mp h2 with ⟨d, _, he⟩
    subst he
    exact ⟨Or.inr h3, pyLowerChar_idem d⟩

theorem normalized_NR (s : String) : NR nonWord (normalize_movie_name s).data := by
  rw [normalize_data]
  exact NR_pyStrip _ _ (NR_subRuns nonWord _ false)

/-! Helper lemmas about is_equivalent. -/

theorem ite_true_or (c1 c2 c3 : Bool) :
    (if c1 then true else if c2 then true else c3) = (c1 || (c2 || c3)) := by
  cases c1 <;> cases c2 <;> simp

theorem is_equivalent_eq (a b : MovieInfo) :
    is_equivalent a b =
      ((pySetEq (pySetOfList (a.imdb.map (fun i => i.imdb_id)))
          (pySetOfList (b.imdb.map (fun i => i.imdb_id))) &&
        ((pySetOfList (a.imdb.map (fun i => i.imdb_id))).length == 0)) ||
       ((!(pyDisjoint (pySetOfList (b.platforms.map platformStr))
            (pySetOfList (a.platforms.map platformStr)))) ||
        (decide (normalize_movie_name a.name = normalize_movie_name b.name) &&
         decide (a.release_yr = b.release_yr)))) := by
  unfold is_equivalent
  exact ite_true_or _ _ _

theorem cond1_false_of_not_both_empty (a b : MovieInfo)
    (h : ¬(a.imdb = [] ∧ b.imdb = [])) :
    (pySetEq (pySetOfList (a.imdb.map (fun i => i.imdb_id)))
        (pySetOfList (b.imdb.map (fun i => i.imdb_id))) &&
      ((pySetOfList (a.imdb.map (fun i => i.imdb_id))).length == 0)) = false := by
  by_contra hcc
  have htrue : (pySetEq (pySetOfList (a.imdb.map (fun i => i.imdb_id)))
      (pySetOfList (b.imdb.map (fun i => i.imdb_id))) &&
      ((pySetOfList (a.imdb.map (fun i => i.imdb_id))).length == 0)) = true := by
    simpa using hcc
  rw [pySetEq_empty_iff, pySetOfList_nil_iff, pySetOfList_nil_iff,
    List.map_eq_nil_iff, List.map_eq_nil_iff] at htrue
  exact h htrue

theorem platform_overlap_iff (a b : MovieInfo) :
    pyDisjoint (pySetOfList (b.platforms.map platformStr))
        (pySetOfList (a.platforms.map platformStr)) = false ↔
      ∃ p ∈ a.platforms, ∃ q ∈ b.platforms, platformStr p = platformStr q := by
  rw [pyDisjoint_eq_false_iff]
  constructor
  · rintro ⟨x, hxb, hxa⟩
    rw [mem_pySetOfList] at hxb hxa
    rcases List.mem_map.mp hxb with ⟨q, hq, hqe⟩
    rcases List.mem_map.mp hxa with ⟨p, hp, hpe⟩
    exact ⟨p, hp, q, hq, by rw [hpe, hqe]⟩
  · rintro ⟨p, hp, q, hq, he⟩
    refine ⟨platformStr q, ?_, ?_⟩
    · rw [mem_pySetOfList]
      exact List.mem_map.mpr ⟨q, hq, rfl⟩
    · rw [mem_pySetOfList]
      exact List.mem_map.mpr ⟨p, hp, he⟩

/-! The claims. -/

/-- C7: the name normalizer is idempotent: for every string s,
normalize_movie_name (normalize_movie_name s) = normalize_movie_name s. -/
theorem claim_C7_normalize_idem (s : String) :
    normalize_movie_name (normalize_movie_name s) = normalize_movie_name s := by
  set t := normalize_movie_name s with ht
  have hchars := normalized_chars s
  have hNR : NR nonWord t.data := normalized_NR s
  have hmap : t.data.map pyLowerChar = t.data :=
    map_fixed _ _ (fun c hc => (hchars c hc).2)
  have hsub1 : subRuns nonWord false t.data = t.data := by
    apply subRuns_fix
    · intro c hc hnw
      rcases (hchars c hc).1 with h | h
      · exact h
      · rw [h] at hnw
        exact absurd hnw (by simp)
    · exact hNR
  have hstrip : pyStrip t.data = t.data := by
    apply pyStrip_fix
    · intro c hc
      rw [ht, normalize_data s] at hc
      exact pyStrip_head _ _ hc
    · intro c hc
      rw [ht, normalize_data s] at hc
      exact pyStrip_last _ _ hc
  apply String.ext
  rw [normalize_data t, hmap, hsub1, hstrip]

/-- C5: two listings whose matched_entries are both empty are equivalent
unconditionally, whatever their names, years and platform ids. -/
theorem claim_C5_both_unresolved_equivalent (a b : MovieInfo)
    (ha : a.imdb = []) (hb : b.imdb = []) : is_equivalent a b = true := by
  unfold is_equivalent
  rw [ha, hb]
  rfl

/-- C5 witness: two concrete unresolved listings with different names, years
and platform ids are equivalent. -/
theorem claim_C5_witness :
    is_equivalent
      { name := ("movie one"), release_yr := .int 2000,
        platforms := [{ platform := ("p"), value := ("1") }] }
      { name := ("movie two"), release_yr := .int 1990,
        platforms := [{ platform := ("q"), value := ("2") }] } = true :=
  claim_C5_both_unresolved_equivalent _ _ rfl rfl

/-- C10: the merge predicate is symmetric: is_equivalent a b equals
is_equivalent b a for all listings a and b. -/
theorem claim_C10_is_equivalent_symm (a b : MovieInfo) :
    is_equivalent a b = is_equivalent b a := by
  rw [is_equivalent_eq a b, is_equivalent_eq b a]
  have hsym : ∀ x y : List String,
      (pySetEq x y && (x.length == 0)) = (pySetEq y x && (y.length == 0)) := by
    intro x y
    rw [Bool.eq_iff_iff, pySetEq_empty_iff, pySetEq_empty_iff]
    exact and_comm
  have hdecs : ∀ p q : String, decide (p = q) = decide (q = p) := by
    intro p q
    rw [decide_eq_decide]
    exact eq_comm
  have hdecy : ∀ p q : PyScalar, decide (p = q) = decide (q = p) := by
    intro p q
    rw [decide_eq_decide]
    exact eq_comm
  rw [hsym, pyDisjoint_comm, hdecs, hdecy]

/-- C1 counterexample: two listings sharing matched canonical entry tt1 but
with different names, years and platform ids are not equivalent, against the
claim that a shared matched-entry id forces equivalence. -/
theorem claim_C1_counterexample :
    (let a : MovieInfo := { name := ("x"), imdb := [{ imdb_id := "tt1" }], platforms := [{ platform := ("p"), value := ("1") }], release_yr := .int 2000 };
     let b : MovieInfo := { name := ("y"), imdb := [{ imdb_id := "tt1" }], platforms := [{ platform := ("p"), value := ("2") }], release_yr := .int 2001 };
     ¬(a.imdb = [] ∧ b.imdb = []) ∧
       (∃ i ∈ a.imdb, ∃ j ∈ b.imdb, i.imdb_id = j.imdb_id) ∧
       is_equivalent a b = false) := by
  decide

/-- C1 amended: sharing a matched canonical id does not by itself make two
listings equivalent.  When the listings are not both unresolved,
is_equivalent is true exactly when their platform id sets overlap or their
normalized names and release years both agree; the matched entries play no
further role. -/
theorem claim_C1_amended (a b : MovieInfo) (h : ¬(a.imdb = [] ∧ b.imdb = [])) :
    is_equivalent a b = true ↔
      ((∃ p ∈ a.platforms, ∃ q ∈ b.platforms, platformStr p = platformStr q) ∨
       (normalize_movie_name a.name = normalize_movie_name b.name ∧
        a.release_yr = b.release_yr)) := by
  rw [is_equivalent_eq a b, cond1_false_of_not_both_empty a b h, Bool.false_or,
    Bool.or_eq_true, Bool.not_eq_true', Bool.and_eq_true, decide_eq_true_eq,
    decide_eq_true_eq, platform_overlap_iff]

/-- C1 amended witness: a concrete pair sharing a platform id is equivalent
by the amended rule even though the matched entries differ. -/
theorem claim_C1_amended_witness :
    (let a : MovieInfo := { name := ("x"), imdb := [{ imdb_id := "tt1" }], platforms := [{ platform := ("p"), value := ("1") }], release_yr := .int 2000 };
     let b : MovieInfo := { name := ("y"), imdb := [{ imdb_id := "tt2" }], platforms := [{ platform := ("p"), value := ("1") }], release_yr := .int 2001 };
     is_equivalent a b = true ↔
       ((∃ p ∈ a.platforms, ∃ q ∈ b.platforms, platformStr p = platformStr q) ∨
        (normalize_movie_name a.name = normalize_movie_name b.name ∧
         a.release_yr = b.release_yr))) :=
  claim_C1_amended _ _ (by decide)

/-- Language check of matches against the wording of the claim. -/
theorem lang_check_iff (m : MovieInfo) (languages : List String) :
    (languages.isEmpty || !(pyDisjoint languages m.languages)) = true ↔
      langFilterClaim m languages := by
  rw [Bool.or_eq_true, Bool.not_eq_true', pyDisjoint_eq_false_iff, List.isEmpty_iff]
  unfold langFilterClaim
  constructor
  · rintro (h | ⟨x, h1, h2⟩)
    · exact Or.inl h
    · exact Or.inr ⟨x, h1, h2⟩
  · rintro (h | ⟨x, h1, h2⟩)
    · exact Or.inl h
    · exact Or.inr ⟨x, h1, h2⟩

/-- Year check of matches against the wording of the amended claim, for a
present filter year. -/
theorem year_check_iff (m : MovieInfo) (y : Int) :
    (pyFalsyYear (some y) ||
     decide (m.release_yr = PyScalar.int y) ||
     (decide (m.release_yr = PyScalar.int (-1)) &&
      m.imdb.any (fun mi => decide (mi.year = PyScalar.int y)))) = true ↔
      yearFilterAmended m (some y) := by
  simp [pyFalsyYear, yearFilterAmended, List.any_eq_true, or_assoc]

/-- C3 counterexample: with a filter year of 0 the code returns true for a
listing whose year is 2019, while the claimed contract requires the year
check to fail (the year filter is supplied, 0 is not 2019, and 2019 is not
the unknown sentinel). -/
theorem claim_C3_counterexample :
    matchesFilter mC3 [] (some 0) = some true ∧
      ¬(langFilterClaim mC3 [] ∧ yearFilterClaim mC3 (some 0)) := by
  constructor
  · rfl
  · rintro ⟨_, hy⟩
    simp only [yearFilterClaim] at hy
    rcases hy with h | ⟨h, _⟩ <;> exact absurd h (by decide)

/-- C3 amended: matches returns true exactly when the language check of the
claim passes and the year check passes with a filter year of 0 additionally
treated like an absent filter. -/
theorem claim_C3_amended (m : MovieInfo) (languages : List String) (release_yr : Option Int)
    (h : ¬(languages = [] ∧ release_yr = none)) :
    matchesFilter m languages release_yr = some true ↔
      (langFilterClaim m languages ∧ yearFilterAmended m release_yr) := by
  have hcond : ¬((languages.isEmpty && release_yr.isNone) = true) := by
    cases languages <;> cases release_yr <;> simp_all
  unfold matchesFilter
  rw [if_neg hcond]
  simp only [Option.some.injEq, Bool.and_eq_true]
  apply and_congr
  · exact lang_check_iff m languages
  · cases release_yr with
    | none => simp [pyFalsyYear, yearFilterAmended]
    | some y => exact year_check_iff m y

/-- C3 amended witness: the documented example filter accepts a listing with
a matching language and year. -/
theorem claim_C3_amended_witness :
    matchesFilter mC3 [("en")] (some 2019) = some true ↔
      (langFilterClaim mC3 [("en")] ∧ yearFilterAmended mC3 (some 2019)) :=
  claim_C3_amended _ _ _ (by decide)

/-- C2: the claim that years at the public interface are integers or the
sentinel -1 states the annotated intent, but the code stores the raw feed
and TSV strings: the listing built by from_whats_on_netflix carries the
string 2017 and the entry seeded from a basics row carries the string
1999, neither an integer. -/
theorem claim_C2_year_not_int :
    (∃ mi, from_whats_on_netflix sampleWonEntry = some mi ∧
       mi.release_yr = PyScalar.str ("2017") ∧ mi.release_yr.isInt = false) ∧
    (∃ e, dictLookup (processBasicsRow [] sampleBasicsRow) ("tt0000001") = some e ∧
       e.year = PyScalar.str ("1999") ∧ e.year.isInt = false) := by
  constructor
  · exact ⟨_, rfl, rfl, rfl⟩
  · exact ⟨_, rfl, rfl, rfl⟩

/-- C9: an akas row whose id does not match a seeded entry creates no entry,
records nothing, and raises nothing: the index is returned unchanged. -/
theorem claim_C9_unknown_aka_dropped (ret : List (String × ImdbMovieInfo)) (row : AkaRow)
    (h : dictLookup ret row.titleId = none) : processAkaRow ret row = ret := by
  unfold processAkaRow
  rw [h]

/-- C9 witness: a concrete akas row referencing an unknown id leaves a
concrete one-entry index unchanged. -/
theorem claim_C9_witness :
    processAkaRow [(("tt1"), sampleEntryC9)] sampleAkaRowC9 = [(("tt1"), sampleEntryC9)] :=
  claim_C9_unknown_aka_dropped _ _ rfl

/-! Helper lemmas about the name_to_id index. -/

theorem mem_addTitleKey (idv : String) (acc2 : List (String × List String))
    (title : String) (n : String) (j : String) :
    j ∈ (dictLookup (addTitleKey idv acc2 title) n).getD [] ↔
      (normalize_movie_name title = n ∧ j = idv) ∨ j ∈ (dictLookup acc2 n).getD [] := by
  unfold addTitleKey
  by_cases hn : normalize_movie_name title = n
  · rw [← hn]
    rw [dictLookup_dictInsert_self]
    by_cases hc : idv ∈ (dictLookup acc2 (normalize_movie_name title)).getD []
    · rw [if_pos hc]
      constructor
      · intro h
        exact Or.inr h
      · rintro (⟨_, rfl⟩ | h)
        · exact hc
        · exact h
    · rw [if_neg hc]
      simp only [Option.getD_some, List.mem_append, List.mem_singleton]
      constructor
      · rintro (h | rfl)
        · exact Or.inr h
        · exact Or.inl ⟨by simp, rfl⟩
      · rintro (⟨_, rfl⟩ | h)
        · exact Or.inr rfl
        · exact Or.inl h
  · rw [dictLookup_dictInsert_ne _ _ _ _ (fun he => hn he.symm)]
    constructor
    · intro h
      exact Or.inr h
    · rintro (⟨he, _⟩ | h)
      · exact absurd he hn
      · exact h

theorem mem_titlesFold (idv : String) (titles : List String) :
    ∀ (acc2 : List (String × List String)) (n j : String),
      j ∈ (dictLookup (titles.foldl (addTitleKey idv) acc2) n).getD [] ↔
        (∃ t ∈ titles, normalize_movie_name t = n ∧ j = idv) ∨
          j ∈ (dictLookup acc2 n).getD [] := by
  induction titles with
  | nil => intro acc2 n j; simp
  | cons t rest ih =>
    intro acc2 n j
    show j ∈ (dictLookup (rest.foldl (addTitleKey idv) (addTitleKey idv acc2 t)) n).getD [] ↔ _
    rw [ih, mem_addTitleKey]
    constructor
    · rintro (⟨t', ht', he⟩ | (he | hbase))
      · exact Or.inl ⟨t', List.mem_cons_of_mem _ ht', he⟩
      · exact Or.inl ⟨t, List.mem_cons_self _ _, he⟩
      · exact Or.inr hbase
    · rintro (⟨t', ht', he⟩ | hbase)
      · rcases List.mem_cons.mp ht' with rfl | ht''
        · exact Or.inr (Or.inl he)
        · exact Or.inl ⟨t', ht'', he⟩
      · exact Or.inr (Or.inr hbase)

theorem mem_indexFold (S : List (String × ImdbMovieInfo)) :
    ∀ (acc : List (String × List String)) (n j : String),
      j ∈ (dictLookup (S.foldl (fun acc p => p.2.titles.foldl (addTitleKey p.1) acc) acc) n).getD [] ↔
        (∃ p ∈ S, p.1 = j ∧ ∃ t ∈ p.2.titles, normalize_movie_name t = n) ∨
          j ∈ (dictLookup acc n).getD [] := by
  induction S with
  | nil => intro acc n j; simp
  | cons q rest ih =>
    intro acc n j
    show j ∈ (dictLookup (rest.foldl _ (q.2.titles.foldl (addTitleKey q.1) acc)) n).getD [] ↔ _
    rw [ih, mem_titlesFold]
    constructor
    · rintro (⟨p, hp, he⟩ | (⟨t, ht, he1, he2⟩ | hbase))
      · exact Or.inl ⟨p, List.mem_cons_of_mem _ hp, he⟩
      · exact Or.inl ⟨q, List.mem_cons_self _ _, he2.symm, t, ht, he1⟩
      · exact Or.inr hbase
    · rintro (⟨p, hp, he, t, ht, hte⟩ | hbase)
      · rcases List.mem_cons.mp hp with rfl | hp'
        · exact Or.inr (Or.inl ⟨t, ht, hte, he.symm⟩)
        · exact Or.inl ⟨p, hp', he, t, ht, hte⟩
      · exact Or.inr (Or.inr hbase)

theorem mem_buildNameToId (S : List (String × ImdbMovieInfo)) (n j : String) :
    j ∈ (dictLookup (buildNameToId S) n).getD [] ↔
      ∃ p ∈ S, p.1 = j ∧ ∃ t ∈ p.2.titles, normalize_movie_name t = n := by
  unfold buildNameToId
  rw [mem_indexFold]
  simp [dictLookup]

/-- C6: lookup_movie returns exactly the entries with a title variant
normalizing to the normalized query: membership in the result is equivalent
to carrying such a variant, and when no entry qualifies the result is the
empty list rather than an error. -/
theorem claim_C6_lookup_movie (S : List (String × ImdbMovieInfo)) (name : String)
    (hnd : (dkeys S).Nodup) :
    (∀ e, e ∈ lookup_movie S name ↔
       ∃ id, (id, e) ∈ S ∧
         ∃ t ∈ e.titles, normalize_movie_name t = normalize_movie_name name) ∧
    ((¬∃ e id, (id, e) ∈ S ∧
         ∃ t ∈ e.titles, normalize_movie_name t = normalize_movie_name name) →
      lookup_movie S name = []) := by
  have hmem : ∀ e, e ∈ lookup_movie S name ↔
      ∃ id, (id, e) ∈ S ∧
        ∃ t ∈ e.titles, normalize_movie_name t = normalize_movie_name name := by
    intro e
    unfold lookup_movie
    rw [List.mem_filterMap]
    constructor
    · rintro ⟨i, hi, hlook⟩
      rw [mem_buildNameToId] at hi
      obtain ⟨⟨pid, pe⟩, hp, hpe, t, ht, hte⟩ := hi
      simp only at hpe ht
      have hl2 : dictLookup S pid = some pe :=
        dictLookup_eq_some_of_mem _ _ _ hnd hp
      rw [hpe, hlook] at hl2
      obtain rfl : e = pe := Option.some_inj.mp hl2
      exact ⟨pid, hp, t, ht, hte⟩
    · rintro ⟨i, hins, t, ht, hte⟩
      refine ⟨i, ?_, dictLookup_eq_some_of_mem _ _ _ hnd hins⟩
      rw [mem_buildNameToId]
      exact ⟨(i, e), hins, rfl, t, ht, hte⟩
  refine ⟨hmem, ?_⟩
  intro hne
  rw [List.eq_nil_iff_forall_not_mem]
  intro e he
  exact hne ⟨e, (hmem e).mp he⟩

/-- C6 witness: a punctuation-mangled query finds the entry whose title
normalizes to it in a concrete two-entry index. -/
theorem claim_C6_witness :
    sampleEntryC9 ∈ lookup_movie
      [(("tt1"), sampleEntryC9),
       (("tt2"), { imdb_id := "tt2", titles := ["Speed"], year := .str ("1994") })]
      ("the MATRIX!") :=
  ((claim_C6_lookup_movie _ _ (by decide)).1 _).mpr
    ⟨("tt1"), by decide, ("The Matrix"), by decide, by decide⟩

/-! Helper lemmas about enrichment. -/

theorem enhance_data_settled (fetch : Except Unit Detail) (m : ImdbMovieInfo)
    (hm : (m.enhanced || m.enhancement_error) = true) :
    enhance_data fetch m = (m, false) := by
  unfold enhance_data
  by_cases h0 : m.imdb_id = ""
  · rw [if_pos h0]
  · rw [if_neg h0, if_pos hm]

theorem enhance_data_imdb_id (fetch : Except Unit Detail) (m : ImdbMovieInfo) :
    (enhance_data fetch m).1.imdb_id = m.imdb_id := by
  by_cases h0 : m.imdb_id = ""
  · simp [enhance_data, h0]
  · by_cases hs : (m.enhanced || m.enhancement_error) = true
    · simp [enhance_data, h0, hs]
    · cases fetch <;> simp [enhance_data, h0, hs]

theorem enhance_data_twice (f1 f2 : Except Unit Detail) (m : ImdbMovieInfo) :
    enhance_data f2 (enhance_data f1 m).1 = ((enhance_data f1 m).1, false) := by
  by_cases h0 : m.imdb_id = ""
  · simp [enhance_data, h0]
  · by_cases hs : (m.enhanced || m.enhancement_error) = true
    · simp [enhance_data, h0, hs]
    · cases f1 <;> simp [enhance_data, h0, hs]

theorem consistent_dictInsert (k : String) (v : ImdbMovieInfo) (hv : v.imdb_id = k) :
    ∀ S : List (String × ImdbMovieInfo), (∀ q ∈ S, q.2.imdb_id = q.1) →
      ∀ q ∈ dictInsert S k v, q.2.imdb_id = q.1 := by
  intro S
  induction S with
  | nil =>
    intro _ q hq
    simp only [dictInsert, List.mem_singleton] at hq
    rw [hq]
    exact hv
  | cons p rest ih =>
    intro hc q hq
    by_cases hp : p.1 = k
    · rw [show dictInsert (p :: rest) k v = (k, v) :: rest from by
            simp [dictInsert, hp]] at hq
      rcases List.mem_cons.mp hq with rfl | hq'
      · exact hv
      · exact hc q (List.mem_cons_of_mem _ hq')
    · rw [show dictInsert (p :: rest) k v = p :: dictInsert rest k v from by
            simp [dictInsert, hp]] at hq
      rcases List.mem_cons.mp hq with rfl | hq'
      · exact hc q (List.mem_cons_self _ _)
      · exact ih (fun r hr => hc r (List.mem_cons_of_mem _ hr)) q hq'

theorem lookup_isSome_dictInsert {α : Type} (d : List (String × α)) (k j : String) (v : α)
    (h : (dictLookup d j).isSome) : (dictLookup (dictInsert d k v) j).isSome := by
  by_cases hj : j = k
  · subst hj
    rw [dictLookup_dictInsert_self]
    rfl
  · rw [dictLookup_dictInsert_ne _ _ _ _ hj]
    exact h

theorem enhance_fold_settled (fetch : String → Except Unit Detail) (idv : String)
    (m : ImdbMovieInfo) (hm : (m.enhanced || m.enhancement_error) = true) :
    ∀ (ids : List String) (S1 : List (String × ImdbMovieInfo)) (ch1 : List String),
      (∀ q ∈ S1, q.2.imdb_id = q.1) →
      (∀ i ∈ ids, (dictLookup S1 i).isSome) →
      dictLookup S1 idv = some m →
      idv ∉ ch1 →
      ∃ S2 ch2, ids.foldlM (enhanceStep fetch) (S1, ch1) = some (S2, ch2) ∧
        idv ∉ ch2 ∧ dictLookup S2 idv = some m := by
  intro ids
  induction ids with
  | nil =>
    intro S1 ch1 _ _ hlook hch
    exact ⟨S1, ch1, rfl, hch, hlook⟩
  | cons i rest ih =>
    intro S1 ch1 hcons hid hlook hch
    obtain ⟨mi, hmi⟩ := Option.isSome_iff_exists.mp (hid i (List.mem_cons_self _ _))
    have hstep : enhanceStep fetch (S1, ch1) i =
        some (dictInsert S1 i (enhance_data (fetch i) mi).1,
          if ((enhance_data (fetch i) mi).1.enhanced,
              (enhance_data (fetch i) mi).1.enhancement_error) ≠
             (mi.enhanced, mi.enhancement_error)
          then ch1 ++ [(enhance_data (fetch i) mi).1.imdb_id] else ch1) := by
      simp only [enhanceStep, hmi]
    rw [List.foldlM_cons, hstep]
    have hmiid : mi.imdb_id = i :=
      hcons (i, mi) (mem_of_dictLookup_eq_some _ _ _ hmi)
    have hid' : ∀ j ∈ rest,
        (dictLookup (dictInsert S1 i (enhance_data (fetch i) mi).1) j).isSome :=
      fun j hj => lookup_isSome_dictInsert _ _ _ _ (hid j (List.mem_cons_of_mem _ hj))
    have hcons' : ∀ q ∈ dictInsert S1 i (enhance_data (fetch i) mi).1, q.2.imdb_id = q.1 :=
      consistent_dictInsert i _ (by rw [enhance_data_imdb_id, hmiid]) S1 hcons
    by_cases hi : i = idv
    · subst hi
      rw [hmi] at hlook
      have hmm : mi = m := Option.some_inj.mp hlook
      rw [hmm] at hcons' hid' ⊢
      rw [enhance_data_settled (fetch i) m hm, if_neg (fun hcc => hcc rfl)]
      exact ih _ _
        (by simpa [enhance_data_settled (fetch i) m hm] using hcons')
        (by simpa [enhance_data_settled (fetch i) m hm] using hid')
        (dictLookup_dictInsert_self _ _ _) hch
    · have hlk' : dictLookup (dictInsert S1 i (enhance_data (fetch i) mi).1) idv = some m := by
        rw [dictLookup_dictInsert_ne _ _ _ _ (fun he => hi he.symm)]
        exact hlook
      by_cases hchg : ((enhance_data (fetch i) mi).1.enhanced,
          (enhance_data (fetch i) mi).1.enhancement_error) ≠
          (mi.enhanced, mi.enhancement_error)
      · rw [if_pos hchg]
        refine ih _ _ hcons' hid' hlk' ?_
        intro hmem
        rcases List.mem_append.mp hmem with h | h
        · exact hch h
        · rw [List.mem_singleton] at h
          rw [enhance_data_imdb_id, hmiid] at h
          exact hi h.symm
      · rw [if_neg hchg]
        exact ih _ _ hcons' hid' hlk' hch

/-- C8: enrichment is at most once per entry: an already settled entry is
returned unchanged with no fetch performed, a second enhance_data call is
always a no-op (fixed point after the first attempt), and a settled entry is
neither changed by enhance_movie_info nor reported among the changed ids. -/
theorem claim_C8_enrichment_idempotent :
    (∀ (fetch : Except Unit Detail) (m : ImdbMovieInfo),
       (m.enhanced || m.enhancement_error) = true → enhance_data fetch m = (m, false)) ∧
    (∀ (f1 f2 : Except Unit Detail) (m : ImdbMovieInfo),
       enhance_data f2 (enhance_data f1 m).1 = ((enhance_data f1 m).1, false)) ∧
    (∀ (S : List (String × ImdbMovieInfo)) (fetch : String → Except Unit Detail)
       (ids : List String) (idv : String) (m : ImdbMovieInfo),
       (∀ q ∈ S, q.2.imdb_id = q.1) →
       (∀ i ∈ ids, (dictLookup S i).isSome) →
       dictLookup S idv = some m →
       (m.enhanced || m.enhancement_error) = true →
       ∃ S2 changed, enhance_movie_info S fetch ids = some (S2, changed) ∧
         idv ∉ changed ∧ dictLookup S2 idv = some m) := by
  refine ⟨enhance_data_settled, enhance_data_twice, ?_⟩
  intro S fetch ids idv m hcons hid hlook hm
  exact enhance_fold_settled fetch idv m hm ids S [] hcons hid hlook (by simp)

/-- C8 witness: on a concrete two-entry set the settled entry is skipped and
survives unchanged, and repeated enhance_data calls are no-ops. -/
theorem claim_C8_witness :
    enhance_data (Except.ok [(("Language"), [("English")])]) sampleSettledC8 =
        (sampleSettledC8, false) ∧
    enhance_data (Except.error ()) (enhance_data (Except.ok []) sampleFreshC8).1 =
        ((enhance_data (Except.ok []) sampleFreshC8).1, false) ∧
    (∃ S2 changed, enhance_movie_info sampleSetC8 sampleFetch [("tt1"), ("tt2")] =
        some (S2, changed) ∧ ("tt1") ∉ changed ∧
        dictLookup S2 ("tt1") = some sampleSettledC8) :=
  ⟨claim_C8_enrichment_idempotent.1 _ _ (by decide),
   claim_C8_enrichment_idempotent.2.1 _ _ _,
   claim_C8_enrichment_idempotent.2.2 _ _ _ _ _ (by decide) (by decide) (by decide)
     (by decide)⟩

/-! Helper lemmas about merge_netflix. -/

theorem initFold_lookup_of_not_mem (k : String) :
    ∀ (A : List MovieInfo) (acc : List (String × MovieInfo)),
      (∀ a ∈ A, get_netflix_url a ≠ some k) →
      dictLookup (A.foldl initStep acc) k = dictLookup acc k := by
  intro A
  induction A with
  | nil => intro acc _; rfl
  | cons a rest ih =>
    intro acc h
    show dictLookup (rest.foldl initStep (initStep acc a)) k = _
    rw [ih _ (fun x hx => h x (List.mem_cons_of_mem _ hx))]
    cases hu : get_netflix_url a with
    | none => simp only [initStep, hu]
    | some u =>
      have hne : k ≠ u := fun he => h a (List.mem_cons_self _ _) (by rw [hu, he])
      simp only [initStep, hu]
      exact dictLookup_dictInsert_ne _ _ _ _ hne

theorem initFold_lookup_mem (k : String) :
    ∀ (A : List MovieInfo) (acc : List (String × MovieInfo)) (v : MovieInfo),
      dictLookup (A.foldl initStep acc) k = some v →
      (v ∈ A ∧ get_netflix_url v = some k) ∨ dictLookup acc k = some v := by
  intro A
  induction A with
  | nil => intro acc v h; exact Or.inr h
  | cons a rest ih =>
    intro acc v h
    rw [show (a :: rest).foldl initStep acc = rest.foldl initStep (initStep acc a) from rfl] at h
    rcases ih _ _ h with ⟨hm, hu⟩ | hbase
    · exact Or.inl ⟨List.mem_cons_of_mem _ hm, hu⟩
    · cases hu : get_netflix_url a with
      | none =>
        simp only [initStep, hu] at hbase
        exact Or.inr hbase
      | some u =>
        simp only [initStep, hu] at hbase
        by_cases hk : k = u
        · subst hk
          rw [dictLookup_dictInsert_self] at hbase
          obtain rfl : a = v := Option.some_inj.mp hbase
          exact Or.inl ⟨List.mem_cons_self _ _, hu⟩
        · rw [dictLookup_dictInsert_ne _ _ _ _ hk] at hbase
          exact Or.inr hbase

theorem initFold_isSome (k : String) :
    ∀ (A : List MovieInfo) (acc : List (String × MovieInfo)),
      ((∃ a ∈ A, get_netflix_url a = some k) ∨ (dictLookup acc k).isSome) →
      (dictLookup (A.foldl initStep acc) k).isSome := by
  intro A
  induction A with
  | nil =>
    intro acc h
    rcases h with ⟨a, ha, _⟩ | h
    · simp at ha
    · exact h
  | cons a rest ih =>
    intro acc h
    show (dictLookup (rest.foldl initStep (initStep acc a)) k).isSome
    apply ih
    rcases h with ⟨x, hx, hxu⟩ | hsome
    · rcases List.mem_cons.mp hx with rfl | hx'
      · right
        simp only [initStep, hxu]
        rw [dictLookup_dictInsert_self]
        rfl
      · left
        exact ⟨x, hx', hxu⟩
    · right
      cases hu : get_netflix_url a with
      | none =>
        simp only [initStep, hu]
        exact hsome
      | some u =>
        simp only [initStep, hu]
        exact lookup_isSome_dictInsert _ _ _ _ hsome

theorem initFold_nodup :
    ∀ (A : List MovieInfo) (acc : List (String × MovieInfo)),
      (dkeys acc).Nodup → (dkeys (A.foldl initStep acc)).Nodup := by
  intro A
  induction A with
  | nil => intro acc h; exact h
  | cons a rest ih =>
    intro acc h
    apply ih
    cases hu : get_netflix_url a with
    | none =>
      simp only [initStep, hu]
      exact h
    | some u =>
      simp only [initStep, hu]
      exact nodup_dkeys_dictInsert _ _ _ h

theorem initMap_lookup_none (A : List MovieInfo) (k : String)
    (h : ∀ a ∈ A, get_netflix_url a ≠ some k) :
    dictLookup (initNetflixMap A) k = none := by
  unfold initNetflixMap
  rw [initFold_lookup_of_not_mem k A [] h]
  rfl

theorem initMap_lookup_exists (A : List MovieInfo) (k : String)
    (h : ∃ a ∈ A, get_netflix_url a = some k) :
    ∃ a0, dictLookup (initNetflixMap A) k = some a0 ∧ a0 ∈ A ∧
      get_netflix_url a0 = some k := by
  have hs : (dictLookup (initNetflixMap A) k).isSome :=
    initFold_isSome k A [] (Or.inl h)
  obtain ⟨a0, ha0⟩ := Option.isSome_iff_exists.mp hs
  rcases initFold_lookup_mem k A [] a0 ha0 with ⟨hm, hu⟩ | hbase
  · exact ⟨a0, ha0, hm, hu⟩
  · simp [dictLookup] at hbase

theorem initMap_nodup (A : List MovieInfo) : (dkeys (initNetflixMap A)).Nodup :=
  initFold_nodup A [] (by simp [dkeys])

theorem mergeStep_some_absent (acc : List (String × MovieInfo)) (b : MovieInfo) (k : String)
    (hu : get_netflix_url b = some k) (hl : dictLookup acc k = none) :
    mergeStep acc b = some (dictInsert acc k b) := by
  simp only [mergeStep, hu, hl]

theorem mergeStep_some_present (acc : List (String × MovieInfo)) (b : MovieInfo) (k : String)
    (e : MovieInfo) (hu : get_netflix_url b = some k) (hl : dictLookup acc k = some e) :
    mergeStep acc b = some (dictInsert acc k
      { e with src_to_raw_entry := dictUpdate e.src_to_raw_entry b.src_to_raw_entry }) := by
  simp only [mergeStep, hu, hl]

theorem mergeFold_stable (k : String) :
    ∀ (B : List MovieInfo) (acc : List (String × MovieInfo)),
      (∀ x ∈ B, (get_netflix_url x).isSome) →
      (∀ x ∈ B, get_netflix_url x ≠ some k) →
      ∃ fm, B.foldlM mergeStep acc = some fm ∧
        dictLookup fm k = dictLookup acc k ∧
        ((dkeys acc).Nodup → (dkeys fm).Nodup) := by
  intro B
  induction B with
  | nil => intro acc _ _; exact ⟨acc, rfl, rfl, fun h => h⟩
  | cons b rest ih =>
    intro acc hsome hne
    obtain ⟨u, hu⟩ := Option.isSome_iff_exists.mp (hsome b (List.mem_cons_self _ _))
    have hku : k ≠ u := fun he => hne b (List.mem_cons_self _ _) (by rw [hu, he])
    have hsome' : ∀ x ∈ rest, (get_netflix_url x).isSome :=
      fun x hx => hsome x (List.mem_cons_of_mem _ hx)
    have hne' : ∀ x ∈ rest, get_netflix_url x ≠ some k :=
      fun x hx => hne x (List.mem_cons_of_mem _ hx)
    cases hl : dictLookup acc u with
    | none =>
      obtain ⟨fm, hfm, hlk, hnd⟩ := ih (dictInsert acc u b) hsome' hne'
      refine ⟨fm, ?_, ?_, ?_⟩
      · rw [List.foldlM_cons, mergeStep_some_absent acc b u hu hl]
        exact hfm
      · rw [hlk, dictLookup_dictInsert_ne _ _ _ _ hku]
      · intro h
        exact hnd (nodup_dkeys_dictInsert _ _ _ h)
    | some e =>
      obtain ⟨fm, hfm, hlk, hnd⟩ := ih (dictInsert acc u
        { e with src_to_raw_entry := dictUpdate e.src_to_raw_entry b.src_to_raw_entry })
        hsome' hne'
      refine ⟨fm, ?_, ?_, ?_⟩
      · rw [List.foldlM_cons, mergeStep_some_present acc b u e hu hl]
        exact hfm
      · rw [hlk, dictLookup_dictInsert_ne _ _ _ _ hku]
      · intro h
        exact hnd (nodup_dkeys_dictInsert _ _ _ h)

theorem mergeFold_none (b : MovieInfo) (hb : get_netflix_url b = none) :
    ∀ (B : List MovieInfo), b ∈ B →
      ∀ acc, B.foldlM mergeStep acc = none := by
  intro B
  induction B with
  | nil => intro h; simp at h
  | cons x rest ih =>
    intro hmem acc
    rcases List.mem_cons.mp hmem with rfl | hmem'
    · rw [List.foldlM_cons, show mergeStep acc b = none from by simp only [mergeStep, hb]]
      rfl
    · rw [List.foldlM_cons]
      cases hms : mergeStep acc x with
      | none => rfl
      | some acc1 =>
        show (some acc1 >>= fun b' => rest.foldlM mergeStep b') = none
        exact ih hmem' acc1

/-- C4: platform-scoped merge.  A second-source listing whose netflix key
matches a first-source listing yields exactly one output listing for that
key, carrying the raw records of both listings; a second-source listing
whose key matches nothing in the first source appears in the output as a new
listing; and a second-source listing with no derivable key makes the merge
fail on the assert rather than dropping the listing.  The B1 and B2 lists
carry the other second-source listings, away from the key in question. -/
theorem claim_C4_merge_same_platform :
    (∀ (A B1 B2 : List MovieInfo) (b : MovieInfo) (k : String),
       get_netflix_url b = some k →
       (∀ x ∈ B1 ++ B2, (get_netflix_url x).isSome) →
       (∀ x ∈ B1, get_netflix_url x ≠ some k) →
       (∀ x ∈ B2, get_netflix_url x ≠ some k) →
       (dkeys b.src_to_raw_entry).Nodup →
       (∀ a ∈ A, (dkeys a.src_to_raw_entry).Nodup) →
       (∃ a ∈ A, get_netflix_url a = some k) →
       ∃ fm a0 merged, a0 ∈ A ∧ get_netflix_url a0 = some k ∧
         merge_netflix_map A (B1 ++ b :: B2) = some fm ∧
         merge_netflix A (B1 ++ b :: B2) = some (fm.map (fun p => p.2)) ∧
         fm.countP (fun p => decide (p.1 = k)) = 1 ∧
         dictLookup fm k = some merged ∧ merged ∈ fm.map (fun p => p.2) ∧
         (∀ s r, (s, r) ∈ b.src_to_raw_entry →
            dictLookup merged.src_to_raw_entry s = some r) ∧
         (∀ s r, (s, r) ∈ a0.src_to_raw_entry → s ∉ dkeys b.src_to_raw_entry →
            dictLookup merged.src_to_raw_entry s = some r)) ∧
    (∀ (A B1 B2 : List MovieInfo) (b : MovieInfo) (k : String),
       get_netflix_url b = some k →
       (∀ x ∈ B1 ++ B2, (get_netflix_url x).isSome) →
       (∀ x ∈ B1, get_netflix_url x ≠ some k) →
       (∀ x ∈ B2, get_netflix_url x ≠ some k) →
       (∀ a ∈ A, get_netflix_url a ≠ some k) →
       ∃ fm, merge_netflix_map A (B1 ++ b :: B2) = some fm ∧
         merge_netflix A (B1 ++ b :: B2) = some (fm.map (fun p => p.2)) ∧
         dictLookup fm k = some b ∧ b ∈ fm.map (fun p => p.2)) ∧
    (∀ (A B : List MovieInfo) (b : MovieInfo),
       b ∈ B → get_netflix_url b = none → merge_netflix A B = none) := by
  refine ⟨?_, ?_, ?_⟩
  · intro A B1 B2 b k hbu hsome hB1 hB2 hbnd hand hA
    obtain ⟨a0, ha0l, ha0m, ha0u⟩ := initMap_lookup_exists A k hA
    have hndinit := initMap_nodup A
    obtain ⟨m1, hm1, hm1lk, hm1nd⟩ := mergeFold_stable k B1 (initNetflixMap A)
      (fun x hx => hsome x (List.mem_append_left _ hx)) hB1
    rw [ha0l] at hm1lk
    have hstep := mergeStep_some_present m1 b k a0 hbu hm1lk
    obtain ⟨fm, hfm, hfmlk, hfmnd⟩ := mergeFold_stable k B2
      (dictInsert m1 k
        { a0 with src_to_raw_entry := dictUpdate a0.src_to_raw_entry b.src_to_raw_entry })
      (fun x hx => hsome x (List.mem_append_right _ hx)) hB2
    have hfmlk' : dictLookup fm k = some
        { a0 with src_to_raw_entry := dictUpdate a0.src_to_raw_entry b.src_to_raw_entry } := by
      rw [hfmlk, dictLookup_dictInsert_self]
    have hndfm : (dkeys fm).Nodup :=
      hfmnd (nodup_dkeys_dictInsert _ _ _ (hm1nd hndinit))
    have hmain : merge_netflix_map A (B1 ++ b :: B2) = some fm := by
      unfold merge_netflix_map
      rw [List.foldlM_append, hm1]
      show (b :: B2).foldlM mergeStep m1 = some fm
      rw [List.foldlM_cons, hstep]
      exact hfm
    refine ⟨fm, a0,
      { a0 with src_to_raw_entry := dictUpdate a0.src_to_raw_entry b.src_to_raw_entry },
      ha0m, ha0u, hmain, ?_, ?_, hfmlk', ?_, ?_, ?_⟩
    · unfold merge_netflix
      rw [hmain]
      rfl
    · exact countP_key_eq_one fm k hndfm (by rw [hfmlk']; rfl)
    · exact List.mem_map.mpr ⟨(k, _), mem_of_dictLookup_eq_some _ _ _ hfmlk', rfl⟩
    · intro s r hsr
      exact dictLookup_dictUpdate_of_mem _ _ _ _ hbnd hsr
    · intro s r hsr hns
      show dictLookup (dictUpdate a0.src_to_raw_entry b.src_to_raw_entry) s = some r
      rw [dictLookup_dictUpdate_of_not_mem _ _ _ hns]
      exact dictLookup_eq_some_of_mem _ _ _ (hand a0 ha0m) hsr
  · intro A B1 B2 b k hbu hsome hB1 hB2 hA
    have hinit : dictLookup (initNetflixMap A) k = none := initMap_lookup_none A k hA
    obtain ⟨m1, hm1, hm1lk, _⟩ := mergeFold_stable k B1 (initNetflixMap A)
      (fun x hx => hsome x (List.mem_append_left _ hx)) hB1
    rw [hinit] at hm1lk
    have hstep := mergeStep_some_absent m1 b k hbu hm1lk
    obtain ⟨fm, hfm, hfmlk, _⟩ := mergeFold_stable k B2 (dictInsert m1 k b)
      (fun x hx => hsome x (List.mem_append_right _ hx)) hB2
    have hfmlk' : dictLookup fm k = some b := by
      rw [hfmlk, dictLookup_dictInsert_self]
    have hmain : merge_netflix_map A (B1 ++ b :: B2) = some fm := by
      unfold merge_netflix_map
      rw [List.foldlM_append, hm1]
      show (b :: B2).foldlM mergeStep m1 = some fm
      rw [List.foldlM_cons, hstep]
      exact hfm
    refine ⟨fm, hmain, ?_, hfmlk', ?_⟩
    · unfold merge_netflix
      rw [hmain]
      rfl
    · exact List.mem_map.mpr ⟨(k, b), mem_of_dictLookup_eq_some _ _ _ hfmlk', rfl⟩
  · intro A B b hmem hbu
    unfold merge_netflix
    rw [show merge_netflix_map A B = none from mergeFold_none b hbu B hmem (initNetflixMap A)]
    rfl

/-- C4 witness: on concrete inputs the matched listing merges the raw
records of both sources into one output listing, the unmatched listing is
appended as new, and the keyless listing makes the merge fail. -/
theorem claim_C4_witness :
    (∃ fm a0 merged, a0 ∈ [sampleMergeA] ∧ get_netflix_url a0 = some sampleMergeKey ∧
       merge_netflix_map [sampleMergeA] [sampleMergeB] = some fm ∧
       merge_netflix [sampleMergeA] [sampleMergeB] = some (fm.map (fun p => p.2)) ∧
       fm.countP (fun p => decide (p.1 = sampleMergeKey)) = 1 ∧
       dictLookup fm sampleMergeKey = some merged ∧ merged ∈ fm.map (fun p => p.2) ∧
       (∀ s r, (s, r) ∈ sampleMergeB.src_to_raw_entry →
          dictLookup merged.src_to_raw_entry s = some r) ∧
       (∀ s r, (s, r) ∈ a0.src_to_raw_entry → s ∉ dkeys sampleMergeB.src_to_raw_entry →
          dictLookup merged.src_to_raw_entry s = some r)) ∧
    (∃ fm, merge_netflix_map [sampleMergeA] [sampleMergeNew] = some fm ∧
       merge_netflix [sampleMergeA] [sampleMergeNew] = some (fm.map (fun p => p.2)) ∧
       dictLookup fm ("https://www.netflix.com/title/99") = some sampleMergeNew ∧
       sampleMergeNew ∈ fm.map (fun p => p.2)) ∧
    merge_netflix [sampleMergeA] [sampleMergeBad] = none :=
  ⟨claim_C4_merge_same_platform.1 [sampleMergeA] [] [] sampleMergeB sampleMergeKey
     (by decide) (by decide) (by decide) (by decide) (by decide) (by decide) (by decide),
   claim_C4_merge_same_platform.2.1 [sampleMergeA] [] [] sampleMergeNew
     ("https://www.netflix.com/title/99")
     (by decide) (by decide) (by decide) (by decide) (by decide),
   claim_C4_merge_same_platform.2.2 [sampleMergeA] [sampleMergeBad] sampleMergeBad
     (by decide) (by decide)⟩

end Movies
